import Mathlib

/-! Shallow embedding of the horse-race prediction frontend
(`src/frontend/src/app/page.tsx`) and proofs of the specification claims.

Numbers (`number` in TypeScript) are modelled as rationals `ℚ`; strings as
`String`; JSON values by an explicit inductive type.  Stateful React code is
modelled by explicit state passing on a `PageState` record, and the set of
horse lists the UI can produce by an inductive reachability predicate.
-/

namespace Keiba

/-- The `HorseInput` record type of `page.tsx` (lines 6-13): per-horse
attributes entered in the form. -/
structure HorseInput where
  waku : ℚ
  umaban : ℚ
  jockey_weight : ℚ
  horse_weight : ℚ
  sex : ℚ
  age : ℚ
deriving DecidableEq, Repr, Inhabited

/-- The `Prediction` record type of `page.tsx` (lines 16-19): one entry of the
`predictions` array returned by the backend. -/
structure Prediction where
  umaban : ℚ
  probability : ℚ
deriving DecidableEq, Repr, Inhabited

/-- Source function `createDefaultHorse` (`page.tsx` lines 22-29). -/
def createDefaultHorse (umaban : ℚ) : HorseInput :=
  { waku := 1
    umaban := umaban
    jockey_weight := 55
    horse_weight := 480
    sex := 0
    age := 4 }

/-- The six field names of `HorseInput` (`keyof HorseInput` in
`handleHorseChange`). -/
inductive HorseField where
  | waku
  | umaban
  | jockey_weight
  | horse_weight
  | sex
  | age
deriving DecidableEq, Repr

/-- Projection of a `HorseInput` at a field name. -/
def readField (h : HorseInput) : HorseField → ℚ
  | .waku => h.waku
  | .umaban => h.umaban
  | .jockey_weight => h.jockey_weight
  | .horse_weight => h.horse_weight
  | .sex => h.sex
  | .age => h.age

/-- The object-spread update `\x7b...h, [field]: x\x7d` of `handleHorseChange`:
replace the one named field, keep the rest. -/
def setField (h : HorseInput) (x : ℚ) : HorseField → HorseInput
  | .waku => { h with waku := x }
  | .umaban => { h with umaban := x }
  | .jockey_weight => { h with jockey_weight := x }
  | .horse_weight => { h with horse_weight := x }
  | .sex => { h with sex := x }
  | .age => { h with age := x }

/-- Numeric value of a decimal digit character, `none` for any other
character. -/
def charDigit? (c : Char) : Option Nat :=
  if 48 ≤ c.toNat ∧ c.toNat ≤ 57 then some (c.toNat - 48) else none

/-- Value of a non-empty all-digit character list, `none` otherwise. -/
def decNatAux : Option Nat → List Char → Option Nat
  | acc, [] => acc
  | acc, c :: cs =>
    match charDigit? c with
    | none => none
    | some d => decNatAux (some ((acc.getD 0) * 10 + d)) cs

/-- Model of the JavaScript `Number(string)` conversion, restricted to the
optionally-signed decimal integer strings that the form controls of this
page produce (the `select` options "0", "1", "2" and `input type=number`
values); `Number("")` is `0` as in JS.  Strings outside that fragment (where
JS would yield `NaN` or a fractional value) are mapped to `0`; no claim
depends on their value. -/
def jsNumber (s : String) : ℚ :=
  match s.data with
  | [] => 0
  | '-' :: cs => -(((decNatAux none cs).getD 0 : ℚ))
  | cs => ((decNatAux none cs).getD 0 : ℚ)

/-- Source function `handleHorseChange` (`page.tsx` lines 51-64): copy the list; refuse to
change `umaban`; otherwise overwrite entry `index` with a copy whose `field`
is `Number(value)`.  The UI only calls it with `index` drawn from the render
loop, hence in bounds; `List.set` ignores out-of-range indices. -/
def handleHorseChange (horses : List HorseInput) (index : Nat)
    (field : HorseField) (value : String) : List HorseInput :=
  if field = HorseField.umaban then horses
  else
    horses.set index
      (setField (horses.getD index (createDefaultHorse 1)) (jsNumber value) field)

/-- Source function `removeHorse` (`page.tsx` lines 67-70):
`horses.filter((_, i) => i !== index)`. -/
def removeHorse (horses : List HorseInput) (index : Nat) : List HorseInput :=
  ((horses.enum).filter (fun p => p.1 != index)).map (fun p => p.2)

/-- Model of `Math.max(...)` over a spread list of rationals.  The empty case is
unreachable in `addHorse` (guarded by `horses.length > 0`); JS would give
`-Infinity` there, modelled as `0`. -/
def mathMax : List ℚ → ℚ
  | [] => 0
  | u :: us => us.foldl max u

/-- Source function `addHorse` (`page.tsx` lines 44-48): append a default horse whose
`umaban` is one greater than the maximum existing `umaban`, or `1` when the
list is empty. -/
def addHorse (horses : List HorseInput) : List HorseInput :=
  let newUmaban : ℚ :=
    if horses.length > 0 then mathMax (horses.map (fun h => h.umaban)) + 1 else 1
  horses ++ [createDefaultHorse newUmaban]

/-- The React state of the `Home` component (`page.tsx` lines 33-41). -/
structure PageState where
  horses : List HorseInput
  predictions : List Prediction
  isLoading : Bool
  error : Option String
deriving DecidableEq, Repr

/-- The initial state (`page.tsx` lines 33-41): one default horse, no
predictions, not loading, no error. -/
def initialState : PageState :=
  { horses := [createDefaultHorse 1]
    predictions := []
    isLoading := false
    error := none }

/-- The parsed JSON body of an ok predict response (`data` in
`handlePredict`): an optional `error` string and a `predictions` array. -/
structure RespData where
  error : Option String
  predictions : List Prediction
deriving DecidableEq, Repr

/-- JavaScript truthiness of `data.error` in `if (data.error)`: a present,
non-empty string is truthy; an absent field or the empty string is falsy. -/
def errorTruthy : Option String → Bool
  | none => false
  | some s => s != ""

/-- The possible outcomes of the `fetch` in `handlePredict`:
the promise rejects with an `Error` carrying a message; or an HTTP response
arrives, whose body either fails to parse as JSON (rejection message held by
`Except.error`) or parses to a `RespData`. -/
inductive FetchOutcome where
  | fetchFailed (msg : String)
  | httpResponse (ok : Bool) (status : Nat) (body : Except String RespData)
deriving Repr

/-- The message thrown on a non-ok status (`page.tsx` lines 88-90). -/
def statusErrorMsg (status : Nat) : String :=
  "予測サーバーとの通信に失敗しました (Status: " ++ toString status ++
    ")。バックエンドサーバーは起動していますか？"

/-- The message thrown on a truthy `data.error` (`page.tsx` line 95). -/
def predictErrorMsg (e : String) : String :=
  "予測エラー: " ++ e

/-- The first three statements of `handlePredict` (`page.tsx` lines 74-76):
set loading, clear the error, clear the previous predictions. -/
def handlePredictStart (s : PageState) : PageState :=
  { s with isLoading := true, error := none, predictions := [] }

/-- The `try`/`catch`/`finally` of `handlePredict` (`page.tsx` lines 78-108)
run from state `s` on outcome `o`: every thrown `Error`'s message lands in
`error` via the `catch`; a parsed body with falsy `error` field stores its
`predictions`; the `finally` clears `isLoading`. -/
def handlePredictSettle (s : PageState) (o : FetchOutcome) : PageState :=
  let s1 :=
    match o with
    | .fetchFailed msg => { s with error := some msg }
    | .httpResponse ok status body =>
      if !ok then { s with error := some (statusErrorMsg status) }
      else
        match body with
        | .error msg => { s with error := some msg }
        | .ok data =>
          if errorTruthy data.error then
            { s with error := some (predictErrorMsg (data.error.getD "")) }
          else
            { s with predictions := data.predictions }
  { s1 with isLoading := false }

/-- A whole run of `handlePredict` (`page.tsx` lines 73-109): the initial
resets followed by the settled outcome. -/
def handlePredict (s : PageState) (o : FetchOutcome) : PageState :=
  handlePredictSettle (handlePredictStart s) o

/-- The comparator sort of the results section (`page.tsx` line 225):
`predictions.sort((a, b) => b.probability - a.probability)`, a stable sort
that orders probabilities in non-increasing order. -/
def sortPredictions (ps : List Prediction) : List Prediction :=
  ps.mergeSort (fun a b => decide (b.probability ≤ a.probability))

/-- The list the results section renders (`page.tsx` lines 218-248): nothing
when `predictions` is empty, else the sorted predictions. -/
def renderedPredictions (s : PageState) : List Prediction :=
  if s.predictions.length > 0 then sortPredictions s.predictions else []

/-- The predict button's `disabled` expression (`page.tsx` line 201):
`isLoading || horses.length === 0`. -/
def predictDisabled (isLoading : Bool) (horses : List HorseInput) : Bool :=
  isLoading || horses.length == 0

/-- A JSON value, for modelling the request body built by
`JSON.stringify(\x7b horses \x7d)`. -/
inductive JVal where
  | num (q : ℚ)
  | str (s : String)
  | arr (items : List JVal)
  | obj (fields : List (String × JVal))
deriving Repr

/-- The JSON serialization of one `HorseInput`: `JSON.stringify` emits every
own field of the object, in insertion order. -/
def horseJson (h : HorseInput) : JVal :=
  .obj
    [("waku", .num h.waku),
     ("umaban", .num h.umaban),
     ("jockey_weight", .num h.jockey_weight),
     ("horse_weight", .num h.horse_weight),
     ("sex", .num h.sex),
     ("age", .num h.age)]

/-- The request body of `handlePredict` (`page.tsx` line 84):
`JSON.stringify(\x7b horses \x7d)`, one `horses` key holding the array of the
serialized horses in list order. -/
def predictBody (horses : List HorseInput) : JVal :=
  .obj [("horses", .arr (horses.map horseJson))]

/-- Read a JSON number. -/
def asNum : JVal → Option ℚ
  | .num q => some q
  | _ => none

/-- Decoder of one horse object, following the spec contract words
`\x7bwaku: integer, umaban: integer, jockey_weight: number, horse_weight:
number, sex: integer(0|1|2), age: integer\x7d`: all six named fields must be
present as numbers. -/
def decodeHorse : JVal → Option HorseInput
  | .obj fs => do
    let waku ← (fs.lookup "waku").bind asNum
    let umaban ← (fs.lookup "umaban").bind asNum
    let jockey_weight ← (fs.lookup "jockey_weight").bind asNum
    let horse_weight ← (fs.lookup "horse_weight").bind asNum
    let sex ← (fs.lookup "sex").bind asNum
    let age ← (fs.lookup "age").bind asNum
    some
      { waku := waku, umaban := umaban, jockey_weight := jockey_weight
        horse_weight := horse_weight, sex := sex, age := age }
  | _ => none

/-- Decoder of a JSON array of horse objects, in order; any failing element
fails the whole array. -/
def decodeHorses : List JVal → Option (List HorseInput)
  | [] => some []
  | v :: vs => do
    let h ← decodeHorse v
    let t ← decodeHorses vs
    some (h :: t)

/-- Decoder of the predict request body, following the spec contract words
`\x7bhorses: array of ...\x7d`: a `horses` key holding an array of horse
objects, decoded in order. -/
def decodePredictBody : JVal → Option (List HorseInput)
  | .obj fs =>
    match fs.lookup "horses" with
    | some (.arr items) => decodeHorses items
    | _ => none
  | _ => none

/-- A race record, as in the spec contract for `GET /api/races`:
`\x7bid: integer, name: string, venue: string, date: string\x7d`. -/
structure Race where
  id : Int
  name : String
  venue : String
  date : String
deriving DecidableEq, Repr

/-- Cache behaviour requested for an HTTP request. -/
inductive CacheMode where
  | noStore
  | defaultCache
deriving DecidableEq, Repr

/-- An HTTP request issued by a view. -/
structure RequestSpec where
  method : String
  url : String
  cache : CacheMode
deriving DecidableEq, Repr

/-- The single uncached GET request of the race listing view. -/
def getRacesRequest : RequestSpec :=
  { method := "GET", url := "/api/races", cache := CacheMode.noStore }

/-- Modelled from the spec: the race listing page component is not under
`src/` (the repository snapshot holds only the prediction page), so its load
behaviour is modelled from the spec sentence "on each page load, issues one
uncached GET request to the races endpoint, expects a JSON array of race
records, and renders them as a static table. No client-side mutation." — a
page load issues the one request and renders exactly the fetched records, in
order, with no further state change. -/
def racesPageLoad (fetched : List Race) : List RequestSpec × List Race :=
  ([getRacesRequest], fetched)

/-- The horse lists reachable from the initial one-horse state through the
three UI operations, with arbitrary input strings. -/
inductive Reachable : List HorseInput → Prop where
  | init : Reachable initialState.horses
  | add {hs : List HorseInput} : Reachable hs → Reachable (addHorse hs)
  | remove {hs : List HorseInput} (index : Nat) :
      Reachable hs → Reachable (removeHorse hs index)
  | change {hs : List HorseInput} (index : Nat) (field : HorseField)
      (value : String) :
      Reachable hs → Reachable (handleHorseChange hs index field value)

/-- The horse lists reachable through the UI when, as in the rendered page,
the `sex` field only ever receives one of the `select` option values
"0", "1", "2" (`page.tsx` lines 159-170). -/
inductive ReachableUI : List HorseInput → Prop where
  | init : ReachableUI initialState.horses
  | add {hs : List HorseInput} : ReachableUI hs → ReachableUI (addHorse hs)
  | remove {hs : List HorseInput} (index : Nat) :
      ReachableUI hs → ReachableUI (removeHorse hs index)
  | change {hs : List HorseInput} (index : Nat) (field : HorseField)
      (value : String) :
      (field = HorseField.sex → value = "0" ∨ value = "1" ∨ value = "2") →
      ReachableUI hs → ReachableUI (handleHorseChange hs index field value)

/-! Helper lemmas. -/

lemma readField_setField_self (h : HorseInput) (x : ℚ) (f : HorseField) :
    readField (setField h x f) f = x := by
  cases f <;> rfl

lemma readField_setField_ne (h : HorseInput) (x : ℚ) {f g : HorseField}
    (hg : g ≠ f) : readField (setField h x f) g = readField h g := by
  cases f <;> cases g <;> first | rfl | exact absurd rfl hg

lemma umaban_setField (h : HorseInput) (x : ℚ) {f : HorseField}
    (hf : f ≠ HorseField.umaban) : (setField h x f).umaban = h.umaban := by
  cases f <;> first | rfl | exact absurd rfl hf

lemma sex_setField (h : HorseInput) (x : ℚ) {f : HorseField}
    (hf : f ≠ HorseField.sex) : (setField h x f).sex = h.sex := by
  cases f <;> first | rfl | exact absurd rfl hf

lemma getD_set_self {α : Type} (l : List α) (i : Nat) (a d : α)
    (h : i < l.length) : (l.set i a).getD i d = a := by
  induction l generalizing i with
  | nil => simp at h
  | cons b t ih =>
    cases i with
    | zero => rfl
    | succ j => exact ih j (by simpa using h)

lemma getD_set_ne {α : Type} (l : List α) {i j : Nat} (a d : α) (h : j ≠ i) :
    (l.set i a).getD j d = l.getD j d := by
  induction l generalizing i j with
  | nil => rfl
  | cons b t ih =>
    cases i with
    | zero =>
      cases j with
      | zero => exact absurd rfl h
      | succ k => rfl
    | succ i2 =>
      cases j with
      | zero => rfl
      | succ k => exact ih (fun hh => h (by omega))

lemma mem_set_cases {α : Type} {l : List α} {i : Nat} {a b : α}
    (hb : b ∈ l.set i a) : b ∈ l ∨ b = a := by
  induction l generalizing i with
  | nil => simp at hb
  | cons c t ih =>
    cases i with
    | zero =>
      rcases List.mem_cons.1 hb with rfl | hmem
      · exact Or.inr rfl
      · exact Or.inl (List.mem_cons_of_mem c hmem)
    | succ j =>
      rcases List.mem_cons.1 hb with rfl | hmem
      · exact Or.inl (List.mem_cons_self b t)
      · rcases ih hmem with hl | hr
        · exact Or.inl (List.mem_cons_of_mem c hl)
        · exact Or.inr hr

lemma getD_mem_or_eq {α : Type} (l : List α) (i : Nat) (d : α) :
    l.getD i d ∈ l ∨ l.getD i d = d := by
  induction l generalizing i with
  | nil => exact Or.inr rfl
  | cons a t ih =>
    cases i with
    | zero => exact Or.inl (List.mem_cons_self a t)
    | succ j =>
      rcases ih j with hl | hr
      · exact Or.inl (List.mem_cons_of_mem a hl)
      · exact Or.inr hr

lemma enumFrom_filter_map_sublist (l : List HorseInput) (index : Nat) :
    ∀ n : Nat,
      (((List.enumFrom n l).filter (fun p => p.1 != index)).map
        (fun p => p.2)).Sublist l := by
  induction l with
  | nil => intro n; simp
  | cons a t ih =>
    intro n
    show (((( n, a) :: List.enumFrom (n + 1) t).filter
      (fun p => p.1 != index)).map (fun p => p.2)).Sublist (a :: t)
    rw [List.filter_cons]
    by_cases hn : (n != index) = true
    · simpa [hn] using List.Sublist.cons₂ a (ih (n + 1))
    · simpa [hn] using List.Sublist.cons a (ih (n + 1))

lemma removeHorse_sublist (hs : List HorseInput) (index : Nat) :
    (removeHorse hs index).Sublist hs :=
  enumFrom_filter_map_sublist hs index 0

lemma le_foldl_max : ∀ (l : List ℚ) (a x : ℚ), x = a ∨ x ∈ l →
    x ≤ l.foldl max a := by
  intro l
  induction l with
  | nil =>
    rintro a x (rfl | hx)
    · exact le_refl x
    · simp at hx
  | cons b t ih =>
    rintro a x (rfl | hx)
    · exact le_trans (le_max_left x b) (ih (max x b) (max x b) (Or.inl rfl))
    · rcases List.mem_cons.1 hx with rfl | hmem
      · exact le_trans (le_max_right a x) (ih (max a x) (max a x) (Or.inl rfl))
      · exact ih (max a b) x (Or.inr hmem)

lemma le_mathMax {l : List ℚ} {x : ℚ} (hx : x ∈ l) : x ≤ mathMax l := by
  cases l with
  | nil => simp at hx
  | cons a t =>
    rcases List.mem_cons.1 hx with rfl | hmem
    · exact le_foldl_max t x x (Or.inl rfl)
    · exact le_foldl_max t a x (Or.inr hmem)

lemma map_umaban_set (hs : List HorseInput) (i : Nat) (d : HorseInput)
    (x : ℚ) {f : HorseField} (hf : f ≠ HorseField.umaban) :
    (hs.set i (setField (hs.getD i d) x f)).map (fun h => h.umaban)
      = hs.map (fun h => h.umaban) := by
  induction hs generalizing i with
  | nil => rfl
  | cons a t ih =>
    cases i with
    | zero =>
      show (setField a x f).umaban :: t.map (fun h => h.umaban)
        = a.umaban :: t.map (fun h => h.umaban)
      rw [umaban_setField a x hf]
    | succ j =>
      show a.umaban :: (t.set j (setField (t.getD j d) x f)).map
          (fun h => h.umaban)
        = a.umaban :: t.map (fun h => h.umaban)
      rw [ih j]

lemma map_umaban_handleHorseChange (hs : List HorseInput) (index : Nat)
    (field : HorseField) (value : String) :
    (handleHorseChange hs index field value).map (fun h => h.umaban)
      = hs.map (fun h => h.umaban) := by
  unfold handleHorseChange
  by_cases hf : field = HorseField.umaban
  · rw [if_pos hf]
  · rw [if_neg hf]
    exact map_umaban_set hs index (createDefaultHorse 1) (jsNumber value) hf

lemma decodeHorse_horseJson (h : HorseInput) :
    decodeHorse (horseJson h) = some h := rfl

lemma decodeHorses_map (L : List HorseInput) :
    decodeHorses (L.map horseJson) = some L := by
  induction L with
  | nil => rfl
  | cons h t ih => simp [decodeHorses, decodeHorse_horseJson, ih]

lemma jsNumber_sexOptions {v : String}
    (hv : v = "0" ∨ v = "1" ∨ v = "2") :
    jsNumber v = 0 ∨ jsNumber v = 1 ∨ jsNumber v = 2 := by
  rcases hv with rfl | rfl | rfl
  · exact Or.inl (by decide)
  · exact Or.inr (Or.inl (by decide))
  · exact Or.inr (Or.inr (by decide))

lemma sortPredictions_perm (ps : List Prediction) :
    (sortPredictions ps).Perm ps :=
  List.mergeSort_perm ps _

lemma sortPredictions_sorted (ps : List Prediction) :
    (sortPredictions ps).Pairwise
      (fun a b => b.probability ≤ a.probability) := by
  have htrans : ∀ a b c : Prediction,
      decide (b.probability ≤ a.probability) = true →
      decide (c.probability ≤ b.probability) = true →
      decide (c.probability ≤ a.probability) = true := by
    intro a b c hab hbc
    simp only [decide_eq_true_eq] at *
    exact le_trans hbc hab
  have htotal : ∀ a b : Prediction,
      (decide (b.probability ≤ a.probability) ||
       decide (a.probability ≤ b.probability)) = true := by
    intro a b
    simp only [Bool.or_eq_true, decide_eq_true_eq]
    exact le_total b.probability a.probability
  have hp := List.sorted_mergeSort htrans htotal ps
  exact hp.imp (fun hab => of_decide_eq_true hab)

lemma renderedPredictions_eq (s : PageState) :
    renderedPredictions s = sortPredictions s.predictions := by
  unfold renderedPredictions
  by_cases hp : s.predictions.length > 0
  · rw [if_pos hp]
  · rw [if_neg hp]
    have hnil : s.predictions = [] := by
      cases hps : s.predictions with
      | nil => rfl
      | cons a t => rw [hps] at hp; simp at hp
    rw [hnil]
    simp [sortPredictions]

lemma handlePredictSettle_isLoading (s : PageState) (o : FetchOutcome) :
    (handlePredictSettle s o).isLoading = false := rfl

lemma handlePredictSettle_horses (s : PageState) (o : FetchOutcome) :
    (handlePredictSettle s o).horses = s.horses := by
  unfold handlePredictSettle
  cases o with
  | fetchFailed msg => rfl
  | httpResponse ok status body =>
    cases ok with
    | false => rfl
    | true =>
      cases body with
      | error msg => rfl
      | ok data =>
        by_cases ht : errorTruthy data.error
        · simp [ht]
        · simp [ht]

lemma handlePredictSettle_ok_untruthy (s : PageState) (status : Nat)
    (data : RespData) (hne : errorTruthy data.error = false) :
    handlePredictSettle s (FetchOutcome.httpResponse true status
        (Except.ok data))
      = { s with predictions := data.predictions, isLoading := false } := by
  unfold handlePredictSettle
  simp [hne]

lemma handlePredictSettle_error_imp (s : PageState) (o : FetchOutcome)
    (hpred : s.predictions = []) (herr : s.error = none) :
    (handlePredictSettle s o).error ≠ none →
    (handlePredictSettle s o).predictions = [] := by
  intro hne
  unfold handlePredictSettle at *
  cases o with
  | fetchFailed msg => simpa using hpred
  | httpResponse ok status body =>
    cases ok with
    | false => simpa using hpred
    | true =>
      cases body with
      | error msg => simpa using hpred
      | ok data =>
        by_cases ht : errorTruthy data.error
        · simp [ht]
          exact hpred
        · simp [ht] at hne
          exact absurd herr hne

lemma reachable_umaban_pairwise (hs : List HorseInput) (hr : Reachable hs) :
    (hs.map (fun h => h.umaban)).Pairwise (fun a b => a < b) := by
  induction hr with
  | init => simp [initialState]
  | @add hs0 hprev ih =>
    unfold addHorse
    rw [List.map_append, List.pairwise_append]
    refine ⟨ih, List.pairwise_singleton _ _, ?_⟩
    intro a ha b hb
    rcases List.mem_singleton.1 hb with rfl
    have hne : hs0 ≠ [] := by
      rintro rfl
      simp at ha
    have hlen : hs0.length > 0 := List.length_pos.2 hne
    show a < (createDefaultHorse _).umaban
    rw [if_pos hlen]
    calc a ≤ mathMax (hs0.map (fun h => h.umaban)) := le_mathMax ha
      _ < mathMax (hs0.map (fun h => h.umaban)) + 1 := lt_add_one _
  | @remove hs0 index hprev ih =>
    exact List.Pairwise.sublist
      ((removeHorse_sublist hs0 index).map (fun h => h.umaban)) ih
  | @change hs0 index field value hprev ih =>
    rw [map_umaban_handleHorseChange]
    exact ih

/-! The claims. -/

/-- Claim C1: for every successful predict response carrying a predictions
array (`ok` status, body parsed, `error` field falsy), the list rendered by
the results section is a permutation of exactly the returned prediction
records, ordered by probability in non-increasing order. -/
theorem rendered_predictions_sorted_desc (s : PageState) (status : Nat)
    (data : RespData) (hne : errorTruthy data.error = false) :
    (renderedPredictions (handlePredict s
        (FetchOutcome.httpResponse true status (Except.ok data)))).Perm
      data.predictions ∧
    (renderedPredictions (handlePredict s
        (FetchOutcome.httpResponse true status
          (Except.ok data)))).Pairwise
      (fun a b => b.probability ≤ a.probability) := by
  have hpred : (handlePredict s (FetchOutcome.httpResponse true status
      (Except.ok data))).predictions = data.predictions := by
    unfold handlePredict
    rw [handlePredictSettle_ok_untruthy _ _ _ hne]
  rw [renderedPredictions_eq, hpred]
  exact ⟨sortPredictions_perm _, sortPredictions_sorted _⟩

/-- Witness for C1 at a concrete response of two predictions. -/
theorem rendered_predictions_sorted_desc_witness :
    errorTruthy (RespData.mk none
        [Prediction.mk 1 30, Prediction.mk 2 60]).error = false ∧
    (renderedPredictions (handlePredict initialState
        (FetchOutcome.httpResponse true 200 (Except.ok (RespData.mk none
          [Prediction.mk 1 30, Prediction.mk 2 60]))))).Perm
      [Prediction.mk 1 30, Prediction.mk 2 60] :=
  ⟨rfl, (rendered_predictions_sorted_desc initialState 200
    (RespData.mk none [Prediction.mk 1 30, Prediction.mk 2 60]) rfl).1⟩

/-- Claim C2: `handlePredict` serializes the full current horse list as the
body `\x7bhorses: L\x7d`; every horse carries its six fields and the spec
contract's decoder recovers exactly the original list — no horse omitted,
reordered, or altered. -/
theorem predict_body_faithful (L : List HorseInput) :
    predictBody L = JVal.obj [("horses", JVal.arr (L.map horseJson))] ∧
    decodePredictBody (predictBody L) = some L := by
  refine ⟨rfl, ?_⟩
  show decodeHorses (L.map horseJson) = some L
  exact decodeHorses_map L

/-- Counterexample to claim C3 as stated: the response body
`\x7berror: "", predictions: [...]\x7d` contains an `error` field, yet
`handlePredict` completes with a `null` error state and a non-empty stored
predictions list, because `if (data.error)` treats the empty string as
falsy. -/
theorem error_field_counterexample :
    ¬ (((handlePredict initialState (FetchOutcome.httpResponse true 200
          (Except.ok (RespData.mk (some "")
            [Prediction.mk 1 50])))).error ≠ none) ∧
       (handlePredict initialState (FetchOutcome.httpResponse true 200
          (Except.ok (RespData.mk (some "")
            [Prediction.mk 1 50])))).predictions = []) := by
  intro hc
  exact hc.1 rfl

/-- Claim C3 as amended: whenever the predict request yields a network or
parse failure, a non-ok HTTP status, or a response body whose `error` field
is truthy (present and non-empty), `handlePredict` completes with a non-null
error message and an empty predictions list; conversely, on an ok response
whose `error` field is absent or empty, the error state is null and the
returned predictions are stored.  An error message and a non-empty
predictions list never result from the same completed request. -/
theorem error_and_predictions_exclusive :
    (∀ (s : PageState) (msg : String),
      (handlePredict s (FetchOutcome.fetchFailed msg)).error ≠ none ∧
      (handlePredict s (FetchOutcome.fetchFailed msg)).predictions = []) ∧
    (∀ (s : PageState) (status : Nat) (body : Except String RespData),
      (handlePredict s
        (FetchOutcome.httpResponse false status body)).error ≠ none ∧
      (handlePredict s
        (FetchOutcome.httpResponse false status body)).predictions = []) ∧
    (∀ (s : PageState) (status : Nat) (msg : String),
      (handlePredict s (FetchOutcome.httpResponse true status
        (Except.error msg))).error ≠ none ∧
      (handlePredict s (FetchOutcome.httpResponse true status
        (Except.error msg))).predictions = []) ∧
    (∀ (s : PageState) (status : Nat) (data : RespData),
      errorTruthy data.error = true →
      (handlePredict s (FetchOutcome.httpResponse true status
        (Except.ok data))).error ≠ none ∧
      (handlePredict s (FetchOutcome.httpResponse true status
        (Except.ok data))).predictions = []) ∧
    (∀ (s : PageState) (status : Nat) (data : RespData),
      errorTruthy data.error = false →
      (handlePredict s (FetchOutcome.httpResponse true status
        (Except.ok data))).error = none ∧
      (handlePredict s (FetchOutcome.httpResponse true status
        (Except.ok data))).predictions = data.predictions) ∧
    (∀ (s : PageState) (o : FetchOutcome),
      (handlePredict s o).error ≠ none →
      (handlePredict s o).predictions = []) := by
  refine ⟨?_, ?_, ?_, ?_, ?_, ?_⟩
  · intro s msg
    exact ⟨by simp [handlePredict, handlePredictSettle, handlePredictStart],
      by simp [handlePredict, handlePredictSettle, handlePredictStart]⟩
  · intro s status body
    constructor
    · simp [handlePredict, handlePredictSettle, handlePredictStart]
    · simp [handlePredict, handlePredictSettle, handlePredictStart]
  · intro s status msg
    constructor
    · simp [handlePredict, handlePredictSettle, handlePredictStart]
    · simp [handlePredict, handlePredictSettle, handlePredictStart]
  · intro s status data ht
    constructor
    · simp [handlePredict, handlePredictSettle, handlePredictStart, ht]
    · simp [handlePredict, handlePredictSettle, handlePredictStart, ht]
  · intro s status data hf
    unfold handlePredict
    rw [handlePredictSettle_ok_untruthy _ _ _ hf]
    exact ⟨rfl, rfl⟩
  · intro s o
    exact handlePredictSettle_error_imp (handlePredictStart s) o rfl rfl

/-- Witness for C3 (amended) at a concrete truthy error body and a concrete
successful body. -/
theorem error_and_predictions_exclusive_witness :
    errorTruthy (RespData.mk (some "boom") []).error = true ∧
    (handlePredict initialState (FetchOutcome.httpResponse true 200
      (Except.ok (RespData.mk (some "boom") [])))).error ≠ none ∧
    (handlePredict initialState (FetchOutcome.httpResponse true 500
      (Except.ok (RespData.mk (some "boom") [])))).predictions = [] :=
  ⟨rfl,
   (error_and_predictions_exclusive.2.2.2.1 initialState 200
     (RespData.mk (some "boom") []) rfl).1,
   (error_and_predictions_exclusive.2.2.2.1 initialState 500
     (RespData.mk (some "boom") []) rfl).2⟩

/-- Claim C4: on each page load the race listing view issues exactly one
uncached GET request to the races endpoint and renders the fetched race
records as a static table, unchanged and in order (spec-modelled: the race
listing component is absent from the repository snapshot). -/
theorem races_listing_load (rs : List Race) :
    (racesPageLoad rs).1 = [getRacesRequest] ∧
    (racesPageLoad rs).1.length = 1 ∧
    getRacesRequest.method = "GET" ∧
    getRacesRequest.url = "/api/races" ∧
    getRacesRequest.cache = CacheMode.noStore ∧
    (racesPageLoad rs).2 = rs :=
  ⟨rfl, rfl, rfl, rfl, rfl, rfl⟩

/-- Claim C5: for an in-bounds index and a field other than `umaban`,
`handleHorseChange` replaces only that field of the horse at that index with
the numeric conversion of the input string; every other field of that horse,
every other position, and the list length are unchanged.  For `umaban` the
list is returned entirely unchanged. -/
theorem handleHorseChange_frame (horses : List HorseInput) (index : Nat)
    (field : HorseField) (value : String)
    (hidx : index < horses.length) :
    handleHorseChange horses index HorseField.umaban value = horses ∧
    (field ≠ HorseField.umaban →
      ((handleHorseChange horses index field value).length
          = horses.length ∧
       readField ((handleHorseChange horses index field value).getD index
          (createDefaultHorse 1)) field = jsNumber value ∧
       (∀ g : HorseField, g ≠ field →
         readField ((handleHorseChange horses index field value).getD index
            (createDefaultHorse 1)) g
           = readField (horses.getD index (createDefaultHorse 1)) g) ∧
       (∀ j : Nat, j ≠ index →
         (handleHorseChange horses index field value).getD j
            (createDefaultHorse 1)
           = horses.getD j (createDefaultHorse 1)))) := by
  constructor
  · unfold handleHorseChange
    rw [if_pos rfl]
  · intro hf
    have hunf : handleHorseChange horses index field value
        = horses.set index (setField
            (horses.getD index (createDefaultHorse 1))
            (jsNumber value) field) := by
      unfold handleHorseChange
      rw [if_neg hf]
    refine ⟨?_, ?_, ?_, ?_⟩
    · rw [hunf, List.length_set]
    · rw [hunf, getD_set_self _ _ _ _ hidx, readField_setField_self]
    · intro g hg
      rw [hunf, getD_set_self _ _ _ _ hidx, readField_setField_ne _ _ hg]
    · intro j hj
      rw [hunf]
      exact getD_set_ne _ _ _ hj

/-- Witness for C5: changing `waku` of the only horse to "7". -/
theorem handleHorseChange_frame_witness :
    readField ((handleHorseChange initialState.horses 0 HorseField.waku
      "7").getD 0 (createDefaultHorse 1)) HorseField.waku
      = jsNumber "7" :=
  ((handleHorseChange_frame initialState.horses 0 HorseField.waku "7"
    (by simp [initialState])).2 (by simp)).2.1

/-- Claim C6: in every horse-list state reachable through the UI operations
(with the `sex` field only ever receiving one of the select option values
"0", "1", "2"), every horse's `sex` is 0, 1 or 2, so the POSTed payload
satisfies the contract's `sex: integer(0|1|2)` constraint. -/
theorem sex_invariant (hs : List HorseInput) (hr : ReachableUI hs) :
    ∀ h ∈ hs, h.sex = 0 ∨ h.sex = 1 ∨ h.sex = 2 := by
  induction hr with
  | init =>
    intro h hmem
    rcases List.mem_singleton.1 hmem with rfl
    exact Or.inl rfl
  | @add hs0 hprev ih =>
    intro h hmem
    unfold addHorse at hmem
    rcases List.mem_append.1 hmem with hl | hr2
    · exact ih h hl
    · rcases List.mem_singleton.1 hr2 with rfl
      exact Or.inl rfl
  | @remove hs0 index hprev ih =>
    intro h hmem
    exact ih h ((removeHorse_sublist hs0 index).subset hmem)
  | @change hs0 index field value hopt hprev ih =>
    intro h hmem
    unfold handleHorseChange at hmem
    by_cases hf : field = HorseField.umaban
    · rw [if_pos hf] at hmem
      exact ih h hmem
    · rw [if_neg hf] at hmem
      rcases mem_set_cases hmem with hl | rfl
      · exact ih h hl
      · by_cases hsex : field = HorseField.sex
        · subst hsex
          show (setField _ (jsNumber value) HorseField.sex).sex = 0 ∨ _
          simpa [setField] using jsNumber_sexOptions (hopt rfl)
        · rw [sex_setField _ _ hsex]
          rcases getD_mem_or_eq hs0 index (createDefaultHorse 1)
            with hmem2 | heq
          · exact ih _ hmem2
          · rw [heq]
            exact Or.inl rfl

/-- Witness for C6: the sex of the horse produced by selecting "セ" ("2") on
the initial horse. -/
theorem sex_invariant_witness :
    (setField (createDefaultHorse 1) (jsNumber "2")
      HorseField.sex).sex = 0 ∨
    (setField (createDefaultHorse 1) (jsNumber "2")
      HorseField.sex).sex = 1 ∨
    (setField (createDefaultHorse 1) (jsNumber "2")
      HorseField.sex).sex = 2 :=
  sex_invariant _
    (ReachableUI.change 0 HorseField.sex "2"
      (fun _ => Or.inr (Or.inr rfl)) ReachableUI.init)
    _ (by simp [handleHorseChange, initialState])

/-- Claim C7: the `umaban` values of the horse list are strictly increasing
in list order (hence pairwise distinct) in every state reachable from the
initial single-horse state; `addHorse` appends a horse whose `umaban` is one
greater than the maximum existing `umaban` (or 1 for an empty list),
`removeHorse` keeps an order-preserving sublist, and `handleHorseChange`
never modifies an `umaban`. -/
theorem umaban_invariant :
    (∀ hs : List HorseInput, Reachable hs →
      ((hs.map (fun h => h.umaban)).Pairwise (fun a b => a < b) ∧
       (hs.map (fun h => h.umaban)).Pairwise (fun a b => a ≠ b))) ∧
    (∀ hs : List HorseInput, hs ≠ [] →
      addHorse hs = hs ++ [createDefaultHorse
        (mathMax (hs.map (fun h => h.umaban)) + 1)]) ∧
    (addHorse [] = [createDefaultHorse 1]) ∧
    (∀ (hs : List HorseInput) (index : Nat),
      (removeHorse hs index).Sublist hs) ∧
    (∀ (hs : List HorseInput) (index : Nat) (field : HorseField)
        (value : String),
      (handleHorseChange hs index field value).map (fun h => h.umaban)
        = hs.map (fun h => h.umaban)) := by
  refine ⟨?_, ?_, rfl, removeHorse_sublist, map_umaban_handleHorseChange⟩
  · intro hs hr
    have hp := reachable_umaban_pairwise hs hr
    exact ⟨hp, hp.imp (fun hab => ne_of_lt hab)⟩
  · intro hs hne
    unfold addHorse
    rw [if_pos (List.length_pos.2 hne)]

/-- Witness for C7: the two-horse state after one `addHorse`, and `addHorse`
on the empty list. -/
theorem umaban_invariant_witness :
    ((addHorse initialState.horses).map
      (fun h => h.umaban)).Pairwise (fun a b => a < b) ∧
    addHorse [] = [createDefaultHorse 1] :=
  ⟨(umaban_invariant.1 (addHorse initialState.horses)
      (Reachable.add Reachable.init)).1,
   umaban_invariant.2.2.1⟩

/-- Claim C8: the predict button is disabled exactly when `isLoading` is
true or the horse list is empty, so `handlePredict` is only invocable from a
state with at least one horse and no pending request. -/
theorem predict_button_guard (isLoading : Bool)
    (horses : List HorseInput) :
    (predictDisabled isLoading horses = true ↔
      isLoading = true ∨ horses.length = 0) ∧
    (predictDisabled isLoading horses = false ↔
      isLoading = false ∧ 0 < horses.length) := by
  unfold predictDisabled
  cases isLoading <;> simp [Nat.pos_iff_ne_zero]

/-- Witness for C8: the button is enabled in the initial state. -/
theorem predict_button_guard_witness :
    predictDisabled false initialState.horses = false :=
  (predict_button_guard false initialState.horses).2.mpr
    ⟨rfl, by simp [initialState]⟩

/-- Claim C9: every invocation of `handlePredict` first clears the error
state and the previous predictions (and raises `isLoading`), and on every
possible outcome terminates with `isLoading` false and the horse list
unmodified. -/
theorem handlePredict_resets_and_finishes (s : PageState)
    (o : FetchOutcome) :
    (handlePredictStart s).isLoading = true ∧
    (handlePredictStart s).error = none ∧
    (handlePredictStart s).predictions = [] ∧
    (handlePredictStart s).horses = s.horses ∧
    (handlePredict s o).isLoading = false ∧
    (handlePredict s o).horses = s.horses :=
  ⟨rfl, rfl, rfl, rfl,
   handlePredictSettle_isLoading (handlePredictStart s) o,
   handlePredictSettle_horses (handlePredictStart s) o⟩

end Keiba
